import Mathlib

/-!
Verification development for the cw-quadratic-funding contract.

The contract entry points (`instantiate`, `execute_create_proposal`,
`execute_vote_proposal`, `execute_trigger_distribution`) are embedded from
`src/contract.rs`, the storage schema from `src/state.rs`.  Storage maps
(`PROPOSALS`, `VOTES`) are modelled as key-sorted association lists, matching
the ascending-key iteration order of `Map::range` in cw-storage-plus.
`Uint128`/`u128` amounts are modelled as `Nat` with explicit bound checks at
the operations whose overflow aborts the call.

The matching engine (`calculate_clr` in `src/matching.rs`), the fund
validator (`extract_budget_coin` in `src/helper.rs`), and
`InstantiateMsg::validate` (`src/msg.rs`) are not part of the two available
source files; they are modelled from the spec, as marked in their doc
comments.
-/

namespace QF

/-- A `cosmwasm_std::Coin`: a denomination and an unsigned 128-bit amount,
modelled as `Nat`. -/
structure Coin where
  denom : String
  amount : Nat
deriving DecidableEq

/-- The block information relevant to `Expiration` checks. -/
structure BlockInfo where
  height : Nat
  time : Nat
deriving DecidableEq

/-- `cosmwasm_std::Env`, reduced to the block information the contract reads. -/
structure Env where
  block : BlockInfo
deriving DecidableEq

/-- `cosmwasm_std::MessageInfo`: the sender address and the funds sent with
the message. -/
structure MessageInfo where
  sender : String
  funds : List Coin
deriving DecidableEq

/-- `cw_utils::Expiration`. -/
inductive Expiration where
  | atHeight : Nat → Expiration
  | atTime : Nat → Expiration
  | never : Expiration
deriving DecidableEq

/-- `Expiration::is_expired`: expired once the block height (resp. time) has
reached the threshold; `Never` never expires. -/
def Expiration.isExpired : Expiration → BlockInfo → Bool
  | .atHeight h, b => decide (h ≤ b.height)
  | .atTime t, b => decide (t ≤ b.time)
  | .never, _ => false

/-- The algorithm variant from `src/matching.rs`, as used by
`src/contract.rs` and `src/state.rs`: a single variant carrying an opaque
parameter string. -/
inductive QuadraticFundingAlgorithm where
  | capitalConstrainedLiberalRadicalism : String → QuadraticFundingAlgorithm
deriving DecidableEq

/-- `Config` from `src/state.rs`. -/
structure Config where
  admin : String
  leftover_addr : String
  create_proposal_whitelist : Option (List String)
  vote_proposal_whitelist : Option (List String)
  voting_period : Expiration
  proposal_period : Expiration
  budget : Coin
  algorithm : QuadraticFundingAlgorithm
deriving DecidableEq

/-- `Proposal` from `src/state.rs`; `metadata` is an opaque byte string. -/
structure Proposal where
  id : Nat
  title : String
  description : String
  metadata : Option (List Nat)
  fund_address : String
  collected_funds : Nat
deriving DecidableEq

/-- `Vote` from `src/state.rs`. -/
structure Vote where
  proposal_id : Nat
  voter : String
  fund : Coin
deriving DecidableEq

/-- The contract errors surfaced by the embedded operations.  `std` stands
for a `cosmwasm_std::StdError` (for example loading an item that was never
stored). -/
inductive ContractError where
  | std
  | unauthorized
  | proposalPeriodExpired
  | votingPeriodExpired
  | votingPeriodNotExpired
  | proposalNotFound
  | addressAlreadyVotedProject
  | wrongFundCoin
  | overflow
deriving DecidableEq

/-- `RawGrant` from `src/matching.rs`, with the fields used by
`src/contract.rs`: recipient address, the list of vote amounts, and the
proposal's collected funds. -/
structure RawGrant where
  addr : String
  funds : List Nat
  collected_vote_funds : Nat
deriving DecidableEq

/-- The per-grant output of `calculate_clr` as consumed by
`src/contract.rs`: `f.addr`, `f.grant` (the matched amount) and
`f.collected_vote_funds` passed through. -/
structure CalculatedGrant where
  addr : String
  grant : Nat
  collected_vote_funds : Nat
deriving DecidableEq

/-- The only `CosmosMsg` variant the contract emits: `BankMsg::Send`. -/
inductive CosmosMsg where
  | bankSend : String → List Coin → CosmosMsg
deriving DecidableEq

/-- `cosmwasm_std::Response`, reduced to the messages and attributes the
contract sets. -/
structure Response where
  messages : List CosmosMsg
  attributes : List (String × String)
deriving DecidableEq

/-- `Response::default()`. -/
def Response.default : Response := ⟨[], []⟩

/-- `InstantiateMsg` from `src/msg.rs`, with the fields read by
`instantiate` in `src/contract.rs`. -/
structure InstantiateMsg where
  admin : String
  leftover_addr : String
  create_proposal_whitelist : Option (List String)
  vote_proposal_whitelist : Option (List String)
  voting_period : Expiration
  proposal_period : Expiration
  budget_denom : String
  algorithm : QuadraticFundingAlgorithm
deriving DecidableEq

/-- `ExecuteMsg` from `src/msg.rs`, with the payloads read by `execute`. -/
inductive ExecuteMsg where
  | createProposal : String → String → Option (List Nat) → String → ExecuteMsg
  | voteProposal : Nat → ExecuteMsg
  | triggerDistribution : ExecuteMsg
deriving DecidableEq

/-- Decidable equality for `Except`, used to evaluate concrete runs. -/
def exceptDecEq {ε α : Type} [DecidableEq ε] [DecidableEq α] :
    (a b : Except ε α) → Decidable (a = b)
  | .ok x, .ok y =>
    if h : x = y then .isTrue (by rw [h])
    else .isFalse (by intro hh; injection hh; contradiction)
  | .ok _, .error _ => .isFalse (fun hh => Except.noConfusion hh)
  | .error _, .ok _ => .isFalse (fun hh => Except.noConfusion hh)
  | .error x, .error y =>
    if h : x = y then .isTrue (by rw [h])
    else .isFalse (by intro hh; injection hh; contradiction)

instance {ε α : Type} [DecidableEq ε] [DecidableEq α] : DecidableEq (Except ε α) :=
  exceptDecEq

/-! ## Storage model

`PROPOSALS : Map<u64, Proposal>` and `VOTES : Map<(u64, &[u8]), Vote>` are
modelled as association lists kept sorted by key in strictly ascending
order, which is the iteration order `Map::range(.., Order::Ascending)`
produces. -/

/-- Insert into (or replace in) a `Nat`-keyed sorted association list. -/
def natMapSave {α : Type} : List (Nat × α) → Nat → α → List (Nat × α)
  | [], k, v => [(k, v)]
  | (k', v') :: t, k, v =>
    if k = k' then (k, v) :: t
    else if k < k' then (k, v) :: (k', v') :: t
    else (k', v') :: natMapSave t k v

/-- Look up a key in a `Nat`-keyed association list. -/
def natMapGet {α : Type} : List (Nat × α) → Nat → Option α
  | [], _ => none
  | (k', v') :: t, k => if k = k' then some v' else natMapGet t k

/-- The vote key `(proposal_id, sender_bytes)`; senders are compared as
strings, matching byte-lexicographic storage order for the addresses used. -/
def VoteKey : Type := Nat × String
deriving instance DecidableEq for VoteKey

/-- Lexicographic comparison of character lists by codepoint, the order of
the raw key bytes in storage (the addresses in play are ASCII). -/
def charsLtb : List Char → List Char → Bool
  | [], [] => false
  | [], _ :: _ => true
  | _ :: _, [] => false
  | a :: as, b :: bs =>
    if a.toNat < b.toNat then true
    else if b.toNat < a.toNat then false
    else charsLtb as bs

/-- Strict lexicographic order on vote keys. -/
def voteKeyLtb (a b : VoteKey) : Bool :=
  decide (a.1 < b.1) || (decide (a.1 = b.1) && charsLtb a.2.data b.2.data)

/-- Insert into (or replace in) the sorted vote map. -/
def voteSave : List (VoteKey × Vote) → VoteKey → Vote → List (VoteKey × Vote)
  | [], k, v => [(k, v)]
  | (k', v') :: t, k, v =>
    if k = k' then (k, v) :: t
    else if voteKeyLtb k k' then (k, v) :: (k', v') :: t
    else (k', v') :: voteSave t k v

/-- Look up a vote key. -/
def voteGet : List (VoteKey × Vote) → VoteKey → Option Vote
  | [], _ => none
  | (k', v') :: t, k => if k = k' then some v' else voteGet t k

/-- The whole contract storage: the `CONFIG` item, the `proposal_seq`
singleton, and the two maps. -/
structure ContractState where
  config : Option Config
  proposal_seq : Nat
  proposals : List (Nat × Proposal)
  votes : List (VoteKey × Vote)
deriving DecidableEq

/-- Storage of a freshly deployed contract: nothing stored yet. -/
def emptyState : ContractState := ⟨none, 0, [], []⟩

/-! ## The matching engine, modelled from the spec -/

/-- The largest `u128` value; amounts beyond it are unrepresentable in the
source's integer width. -/
def UMAX : Nat := 2 ^ 128 - 1

/-- Fuel-driven integer square root: binary descent through `n / 4`.  The
fuel only bounds the recursion depth; `isqrt` supplies enough. -/
def isqrtFuel : Nat → Nat → Nat
  | 0, _ => 0
  | fuel + 1, n =>
    if n = 0 then 0
    else if (2 * isqrtFuel fuel (n / 4) + 1) * (2 * isqrtFuel fuel (n / 4) + 1) ≤ n
    then 2 * isqrtFuel fuel (n / 4) + 1
    else 2 * isqrtFuel fuel (n / 4)

/-- Modelled from the spec: the integer square root of `src/matching.rs`
(not present under `src/`) — "given an unsigned wide integer n, returns the
largest integer r such that r*r ≤ n", exact and deterministic. -/
def isqrt (n : Nat) : Nat := isqrtFuel n n

/-- Modelled from the spec: the liberal-radicalism scorer of
`src/matching.rs` (not present under `src/`) — "given one RawGrant's
contribution list, computes raw_score = (Σ_j isqrt(contribution_j))^2";
a result that would exceed the representable range fails with an overflow
error rather than wrapping. -/
def scoreGrant (g : RawGrant) : Except ContractError Nat :=
  if ((g.funds.map isqrt).sum) * ((g.funds.map isqrt).sum) ≤ UMAX
  then .ok (((g.funds.map isqrt).sum) * ((g.funds.map isqrt).sum))
  else .error .overflow

/-- Scores every grant in order, aborting on the first overflow. -/
def calculate_scores : List RawGrant → Except ContractError (List Nat)
  | [] => .ok []
  | g :: gs =>
    match scoreGrant g, calculate_scores gs with
    | .ok s, .ok rest => .ok (s :: rest)
    | .error e, _ => .error e
    | .ok _, .error e => .error e

/-- Modelled from the spec: `calculate_clr` of `src/matching.rs` (not
present under `src/`).  With budget `None` the raw scores are distributed
verbatim; with budget `Some b` and positive total score each grant gets
`floor(b * raw_score_i / total_score)` (the product widened, so only the
score total itself is overflow-checked), with `leftover = b - Σ matched`;
with total score zero every grant gets 0 and the whole budget is leftover.
Output order equals input order and `collected_vote_funds` passes through
unchanged. -/
def calculate_clr (grants : List RawGrant) (budget : Option Nat) :
    Except ContractError (List CalculatedGrant × Nat) :=
  match calculate_scores grants with
  | .error e => .error e
  | .ok scores =>
    if UMAX < scores.sum then .error .overflow
    else
      match budget with
      | some b =>
        if scores.sum = 0 then
          .ok (grants.map (fun g => ⟨g.addr, 0, g.collected_vote_funds⟩), b)
        else
          .ok ((grants.zip (scores.map (fun s => b * s / scores.sum))).map
                (fun gm => ⟨gm.1.addr, gm.2, gm.1.collected_vote_funds⟩),
            b - (scores.map (fun s => b * s / scores.sum)).sum)
      | none =>
        .ok ((grants.zip scores).map
              (fun gm => ⟨gm.1.addr, gm.2, gm.1.collected_vote_funds⟩), 0)

/-! ## Helpers of the contract entry points -/

/-- Modelled from the spec: `extract_budget_coin` of `src/helper.rs` (not
present under `src/`) — validates that the sent funds consist of exactly
one coin in the expected denomination and returns it, failing otherwise. -/
def extract_budget_coin (funds : List Coin) (denom : String) :
    Except ContractError Coin :=
  match funds with
  | [c] => if c.denom = denom then .ok c else .error .wrongFundCoin
  | _ => .error .wrongFundCoin

/-- Modelled from the spec: `InstantiateMsg::validate` of `src/msg.rs` (not
present under `src/`) — rejects a round whose voting or proposal window is
already expired at instantiation. -/
def InstantiateMsg.validate (msg : InstantiateMsg) (env : Env) :
    Except ContractError Unit :=
  if msg.voting_period.isExpired env.block then .error .votingPeriodExpired
  else if msg.proposal_period.isExpired env.block then .error .proposalPeriodExpired
  else .ok ()

/-- The whitelist guard shared by create-proposal and vote: with no
whitelist everyone passes, otherwise the sender must be listed. -/
def whitelistOk (wl : Option (List String)) (sender : String) : Bool :=
  match wl with
  | none => true
  | some l => l.contains sender

/-! ## Contract entry points (from `src/contract.rs`) -/

/-- `instantiate`: validates the message, extracts the budget coin from the
sent funds, and stores the config.  Address validation is identity on the
opaque address strings. -/
def instantiate (st : ContractState) (env : Env) (info : MessageInfo)
    (msg : InstantiateMsg) : Except ContractError (ContractState × Response) :=
  match msg.validate env with
  | .error e => .error e
  | .ok _ =>
    match extract_budget_coin info.funds msg.budget_denom with
    | .error e => .error e
    | .ok budget =>
      let cfg : Config :=
        { admin := msg.admin
          leftover_addr := msg.leftover_addr
          create_proposal_whitelist := msg.create_proposal_whitelist
          vote_proposal_whitelist := msg.vote_proposal_whitelist
          voting_period := msg.voting_period
          proposal_period := msg.proposal_period
          budget := budget
          algorithm := msg.algorithm }
      .ok ({ st with config := some cfg }, Response.default)

/-- `execute_create_proposal`: whitelist and proposal-period guards, then a
fresh id from `nextval(proposal_seq)` and a proposal with zero collected
funds. -/
def execute_create_proposal (st : ContractState) (env : Env)
    (info : MessageInfo) (title description : String)
    (metadata : Option (List Nat)) (fund_address : String) :
    Except ContractError (ContractState × Response) :=
  match st.config with
  | none => .error .std
  | some config =>
    if whitelistOk config.create_proposal_whitelist info.sender = false then
      .error .unauthorized
    else if config.proposal_period.isExpired env.block then
      .error .proposalPeriodExpired
    else
      let id := st.proposal_seq + 1
      let p : Proposal :=
        { id := id
          title := title
          description := description
          metadata := metadata
          fund_address := fund_address
          collected_funds := 0 }
      .ok ({ st with
              proposal_seq := id
              proposals := natMapSave st.proposals id p },
        { messages := []
          attributes := [("action", "create_proposal"), ("title", title),
            ("proposal_id", toString id)] })

/-- `execute_vote_proposal`: whitelist and voting-period guards, fund
extraction, then the proposal's `collected_funds` is increased by the sent
amount and the vote is recorded — unless the proposal does not exist or the
sender already voted, in which case the call fails and (by the host's
transactional semantics) no mutation survives.  `Uint128` addition aborts
on overflow, modelled as an error. -/
def execute_vote_proposal (st : ContractState) (env : Env)
    (info : MessageInfo) (proposal_id : Nat) :
    Except ContractError (ContractState × Response) :=
  match st.config with
  | none => .error .std
  | some config =>
    if whitelistOk config.vote_proposal_whitelist info.sender = false then
      .error .unauthorized
    else if config.voting_period.isExpired env.block then
      .error .votingPeriodExpired
    else
      match extract_budget_coin info.funds config.budget.denom with
      | .error e => .error e
      | .ok fund =>
        match natMapGet st.proposals proposal_id with
        | none => .error .proposalNotFound
        | some proposal =>
          if UMAX < proposal.collected_funds + fund.amount then .error .overflow
          else
            let proposal' :=
              { proposal with
                  collected_funds := proposal.collected_funds + fund.amount }
            let vote : Vote :=
              { proposal_id := proposal_id, voter := info.sender, fund := fund }
            match voteGet st.votes (proposal_id, info.sender) with
            | some _ => .error .addressAlreadyVotedProject
            | none =>
              .ok ({ st with
                      proposals := natMapSave st.proposals proposal_id proposal'
                      votes := voteSave st.votes (proposal_id, info.sender) vote },
                { messages := []
                  attributes := [("action", "vote_proposal"),
                    ("proposal_key", toString proposal_id),
                    ("voter", vote.voter),
                    ("collected_fund", toString proposal'.collected_funds)] })

/-- The grant assembly loop of `execute_trigger_distribution`: for each
stored proposal (ascending key order), the votes under the proposal's id
(ascending sender order) become the contribution list. -/
def assembleGrants (st : ContractState) : List RawGrant :=
  (st.proposals.map (fun kp => kp.2)).map (fun p =>
    { addr := p.fund_address
      funds := (st.votes.filter (fun kv => kv.1.1 == p.id)).map
        (fun kv => kv.2.fund.amount)
      collected_vote_funds := p.collected_funds })

/-- `execute_trigger_distribution`: admin and voting-period guards, grant
assembly, `calculate_clr` with the configured budget, then one
`BankMsg::Send` of `matched + collected` per grant followed by the leftover
sent to the configured leftover address. -/
def execute_trigger_distribution (st : ContractState) (env : Env)
    (info : MessageInfo) : Except ContractError (ContractState × Response) :=
  match st.config with
  | none => .error .std
  | some config =>
    if info.sender ≠ config.admin then .error .unauthorized
    else if config.voting_period.isExpired env.block = false then
      .error .votingPeriodNotExpired
    else
      match calculate_clr (assembleGrants st) (some config.budget.amount) with
      | .error e => .error e
      | .ok (distr_funds, leftover) =>
        let msgs := distr_funds.map (fun f =>
          CosmosMsg.bankSend f.addr
            [⟨config.budget.denom, f.grant + f.collected_vote_funds⟩])
        .ok (st,
          { messages :=
              msgs ++ [CosmosMsg.bankSend config.leftover_addr
                [⟨config.budget.denom, leftover⟩]]
            attributes := [("action", "trigger_distribution")] })

/-- The `execute` dispatcher. -/
def execute (st : ContractState) (env : Env) (info : MessageInfo) :
    ExecuteMsg → Except ContractError (ContractState × Response)
  | .createProposal title description metadata fund_address =>
    execute_create_proposal st env info title description metadata fund_address
  | .voteProposal proposal_id => execute_vote_proposal st env info proposal_id
  | .triggerDistribution => execute_trigger_distribution st env info

/-- The host's transaction boundary around `execute`: on success the new
storage is committed, on error every mutation is reverted and the stored
state stays as it was. -/
def executeTx (st : ContractState) (env : Env) (info : MessageInfo)
    (msg : ExecuteMsg) : ContractState × Except ContractError Response :=
  match execute st env info msg with
  | .ok (st', r) => (st', .ok r)
  | .error e => (st, .error e)

/-- The transaction boundary around `instantiate`. -/
def instantiateTx (st : ContractState) (env : Env) (info : MessageInfo)
    (msg : InstantiateMsg) : ContractState × Except ContractError Response :=
  match instantiate st env info msg with
  | .ok (st', r) => (st', .ok r)
  | .error e => (st, .error e)

/-- The states reachable by a successful `instantiate` on fresh storage
followed by any sequence of successful `execute` calls. -/
inductive Reachable : ContractState → Prop where
  | init : ∀ env info msg st r,
      instantiate emptyState env info msg = .ok (st, r) → Reachable st
  | step : ∀ st env info msg st' r,
      Reachable st → execute st env info msg = .ok (st', r) → Reachable st'

/-- The sum of the recorded vote amounts for one proposal id. -/
def sumVotesFor (p : Nat) : List (VoteKey × Vote) → Nat
  | [] => 0
  | kv :: t => (if kv.1.1 = p then kv.2.fund.amount else 0) + sumVotesFor p t

/-! ## Integer square root: correctness of the fuel-driven descent -/

lemma isqrtFuel_succ (fuel n : Nat) :
    isqrtFuel (fuel + 1) n =
      if n = 0 then 0
      else if (2 * isqrtFuel fuel (n / 4) + 1) * (2 * isqrtFuel fuel (n / 4) + 1) ≤ n
      then 2 * isqrtFuel fuel (n / 4) + 1
      else 2 * isqrtFuel fuel (n / 4) := rfl

lemma isqrtFuel_spec : ∀ fuel n, n ≤ fuel →
    isqrtFuel fuel n * isqrtFuel fuel n ≤ n ∧
      n < (isqrtFuel fuel n + 1) * (isqrtFuel fuel n + 1) := by
  intro fuel
  induction fuel with
  | zero =>
    intro n hn
    have : n = 0 := Nat.le_zero.mp hn
    subst this
    simp [isqrtFuel]
  | succ fuel ih =>
    intro n hn
    by_cases h0 : n = 0
    · subst h0; simp [isqrtFuel]
    · have hpos : 0 < n := Nat.pos_of_ne_zero h0
      have hrec : n / 4 ≤ fuel := by
        have := Nat.div_lt_self hpos (by norm_num : 1 < 4)
        omega
      have ih' := ih (n / 4) hrec
      set q := isqrtFuel fuel (n / 4) with hq
      have hdm := Nat.div_add_mod n 4
      have hmod : n % 4 < 4 := Nat.mod_lt n (by norm_num)
      have hlow : 2 * q * (2 * q) ≤ n := by
        have h4 : 4 * (q * q) ≤ 4 * (n / 4) := Nat.mul_le_mul_left 4 ih'.1
        calc 2 * q * (2 * q) = 4 * (q * q) := by ring
          _ ≤ 4 * (n / 4) := h4
          _ ≤ n := by omega
      have hhigh : n < (2 * q + 2) * (2 * q + 2) := by
        have h5 : n / 4 + 1 ≤ (q + 1) * (q + 1) := ih'.2
        have h6 : 4 * (n / 4 + 1) ≤ 4 * ((q + 1) * (q + 1)) :=
          Nat.mul_le_mul_left 4 h5
        have h7 : (2 * q + 2) * (2 * q + 2) = 4 * ((q + 1) * (q + 1)) := by ring
        have h8 : 4 * (n / 4 + 1) = 4 * (n / 4) + 4 := by ring
        rw [h7]
        omega
      rw [isqrtFuel_succ]
      rw [if_neg h0, ← hq]
      by_cases hup : (2 * q + 1) * (2 * q + 1) ≤ n
      · rw [if_pos hup]
        refine ⟨hup, ?_⟩
        have : (2 * q + 1 + 1) * (2 * q + 1 + 1) = (2 * q + 2) * (2 * q + 2) := by
          ring
        rw [this]
        exact hhigh
      · rw [if_neg hup]
        exact ⟨hlow, by omega⟩

lemma isqrt_sq_le (n : Nat) : isqrt n * isqrt n ≤ n :=
  (isqrtFuel_spec n n le_rfl).1

lemma lt_isqrt_succ_sq (n : Nat) : n < (isqrt n + 1) * (isqrt n + 1) :=
  (isqrtFuel_spec n n le_rfl).2

lemma le_isqrt_of_sq_le {m n : Nat} (h : m * m ≤ n) : m ≤ isqrt n := by
  by_contra hc
  push_neg at hc
  have h1 : isqrt n + 1 ≤ m := hc
  have := lt_isqrt_succ_sq n
  nlinarith

/-! ## Floor-division bounds for the scaler -/

lemma div_add_div_le (a b d : Nat) : a / d + b / d ≤ (a + b) / d := by
  rcases Nat.eq_zero_or_pos d with h | h
  · subst h; simp
  · rw [Nat.le_div_iff_mul_le h, Nat.add_mul]
    exact Nat.add_le_add (Nat.div_mul_le_self a d) (Nat.div_mul_le_self b d)

lemma sum_map_div_le (l : List Nat) (d : Nat) :
    (l.map (fun a => a / d)).sum ≤ l.sum / d := by
  induction l with
  | nil => simp
  | cons a t ih =>
    simp only [List.map_cons, List.sum_cons]
    calc a / d + (t.map (fun a => a / d)).sum ≤ a / d + t.sum / d :=
          Nat.add_le_add_left ih _
      _ ≤ (a + t.sum) / d := div_add_div_le a t.sum d

lemma sum_map_mul_left_nat (l : List Nat) (b : Nat) :
    (l.map (fun s => b * s)).sum = b * l.sum := by
  induction l with
  | nil => simp
  | cons a t ih => simp [ih, Nat.mul_add]

lemma matched_sum_le (scores : List Nat) (b : Nat) (h : scores.sum ≠ 0) :
    (scores.map (fun s => b * s / scores.sum)).sum ≤ b := by
  have h1 : (scores.map (fun s => b * s / scores.sum)).sum =
      ((scores.map (fun s => b * s)).map (fun a => a / scores.sum)).sum := by
    rw [List.map_map]
    rfl
  rw [h1]
  calc ((scores.map (fun s => b * s)).map (fun a => a / scores.sum)).sum
      ≤ (scores.map (fun s => b * s)).sum / scores.sum :=
        sum_map_div_le _ _
    _ = b * scores.sum / scores.sum := by rw [sum_map_mul_left_nat]
    _ = b := Nat.mul_div_cancel b (Nat.pos_of_ne_zero h)

/-! ## Structure of the engine's successful results -/

lemma scoreGrant_ok {g : RawGrant} {s : Nat} (h : scoreGrant g = .ok s) :
    s = ((g.funds.map isqrt).sum) * ((g.funds.map isqrt).sum) := by
  unfold scoreGrant at h
  split at h
  · exact ((Except.ok.injEq _ _).mp h).symm
  · exact absurd h (by simp)

lemma calculate_scores_eq : ∀ {gs : List RawGrant} {ss : List Nat},
    calculate_scores gs = .ok ss →
    ss = gs.map (fun g => ((g.funds.map isqrt).sum) * ((g.funds.map isqrt).sum)) := by
  intro gs
  induction gs with
  | nil =>
    intro ss h
    simp only [calculate_scores] at h
    simp [← (Except.ok.injEq _ _).mp h]
  | cons g t ih =>
    intro ss h
    unfold calculate_scores at h
    cases h1 : scoreGrant g with
    | error e => rw [h1] at h; cases calculate_scores t <;> simp at h
    | ok s =>
      rw [h1] at h
      cases h2 : calculate_scores t with
      | error e => rw [h2] at h; simp at h
      | ok rest =>
        rw [h2] at h
        have hss : s :: rest = ss := (Except.ok.injEq _ _).mp h
        rw [← hss, List.map_cons, scoreGrant_ok h1, ih h2]

lemma calculate_scores_length {gs : List RawGrant} {ss : List Nat}
    (h : calculate_scores gs = .ok ss) : ss.length = gs.length := by
  rw [calculate_scores_eq h, List.length_map]

lemma calculate_clr_some_inv {gs : List RawGrant} {b : Nat}
    {fs : List CalculatedGrant} {L : Nat}
    (h : calculate_clr gs (some b) = .ok (fs, L)) :
    ∃ ss, calculate_scores gs = .ok ss ∧ ss.sum ≤ UMAX ∧
      ((ss.sum = 0 ∧
          fs = gs.map (fun g => ⟨g.addr, 0, g.collected_vote_funds⟩) ∧ L = b) ∨
        (ss.sum ≠ 0 ∧
          fs = (gs.zip (ss.map (fun s => b * s / ss.sum))).map
            (fun gm => ⟨gm.1.addr, gm.2, gm.1.collected_vote_funds⟩) ∧
          L = b - (ss.map (fun s => b * s / ss.sum)).sum)) := by
  cases hs : calculate_scores gs with
  | error e => simp only [calculate_clr, hs] at h; exact absurd h (by simp)
  | ok ss =>
    simp only [calculate_clr, hs] at h
    refine ⟨ss, rfl, ?_⟩
    split at h
    · exact absurd h (by simp)
    · next hum =>
      refine ⟨by omega, ?_⟩
      split at h
      · next h0 =>
        simp only [Except.ok.injEq, Prod.mk.injEq] at h
        exact Or.inl ⟨h0, h.1.symm, h.2.symm⟩
      · next h0 =>
        simp only [Except.ok.injEq, Prod.mk.injEq] at h
        exact Or.inr ⟨h0, h.1.symm, h.2.symm⟩

lemma calculate_clr_none_inv {gs : List RawGrant}
    {fs : List CalculatedGrant} {L : Nat}
    (h : calculate_clr gs none = .ok (fs, L)) :
    ∃ ss, calculate_scores gs = .ok ss ∧ ss.sum ≤ UMAX ∧
      fs = (gs.zip ss).map
        (fun gm => ⟨gm.1.addr, gm.2, gm.1.collected_vote_funds⟩) ∧
      L = 0 := by
  cases hs : calculate_scores gs with
  | error e => simp only [calculate_clr, hs] at h; exact absurd h (by simp)
  | ok ss =>
    simp only [calculate_clr, hs] at h
    refine ⟨ss, rfl, ?_⟩
    split at h
    · exact absurd h (by simp)
    · next hum =>
      simp only [Except.ok.injEq, Prod.mk.injEq] at h
      exact ⟨by omega, h.1.symm, h.2.symm⟩

/-! ## C1: exact budget conservation -/

/-- C1: for every list of raw grants and every budget `some b`, a successful
run of the distribution engine satisfies the conservation equation exactly:
the sum of the matched amounts plus the leftover equals `b`. -/
theorem clr_conservation {gs : List RawGrant} {b : Nat}
    {fs : List CalculatedGrant} {L : Nat}
    (h : calculate_clr gs (some b) = .ok (fs, L)) :
    (fs.map (fun f => f.grant)).sum + L = b := by
  obtain ⟨ss, hs, hum, hcase⟩ := calculate_clr_some_inv h
  rcases hcase with ⟨h0, hfs, hL⟩ | ⟨h0, hfs, hL⟩
  · have hgrant : fs.map (fun f => f.grant) = gs.map (fun _ => (0 : Nat)) := by
      rw [hfs, List.map_map]
      rfl
    have hsum : (fs.map (fun f => f.grant)).sum = 0 := by
      rw [hgrant]
      apply List.sum_eq_zero
      intro x hx
      rcases List.mem_map.mp hx with ⟨g, _, hgx⟩
      exact hgx.symm
    omega
  · have hlen : (ss.map (fun s => b * s / ss.sum)).length ≤ gs.length := by
      rw [List.length_map, calculate_scores_length hs]
    have hgrant : fs.map (fun f => f.grant) = ss.map (fun s => b * s / ss.sum) := by
      rw [hfs, List.map_map]
      have hcomp : ((fun (f : CalculatedGrant) => f.grant) ∘
          (fun gm : RawGrant × Nat =>
            (⟨gm.1.addr, gm.2, gm.1.collected_vote_funds⟩ : CalculatedGrant))) =
          Prod.snd := rfl
      rw [hcomp]
      exact List.map_snd_zip _ _ hlen
    have hle := matched_sum_le ss b h0
    rw [hgrant, hL]
    omega

/-- C1 witness: one grant with a single contribution of 4 under budget 10
gets the whole budget and leftover 0. -/
theorem clr_conservation_witness :
    (([⟨"a", 10, 4⟩] : List CalculatedGrant).map (fun f => f.grant)).sum + 0 = 10 :=
  @clr_conservation [⟨"a", [4], 4⟩] 10 [⟨"a", 10, 4⟩] 0 (by decide)

/-! ## C4: the liberal-radicalism score -/

/-- C4: `isqrt` is the exact largest-root integer square root, the scorer
returns the square of the sum of the integer square roots of the
contributions, an empty contribution list scores 0, and a grant with an
empty contribution list receives matched amount 0 regardless of budget. -/
theorem lr_score_spec :
    (∀ n m : Nat, isqrt n * isqrt n ≤ n ∧ (m * m ≤ n → m ≤ isqrt n)) ∧
    (∀ (g : RawGrant) (s : Nat), scoreGrant g = .ok s →
      s = ((g.funds.map isqrt).sum) * ((g.funds.map isqrt).sum)) ∧
    (∀ g : RawGrant, g.funds = [] → scoreGrant g = .ok 0) ∧
    (∀ (gs : List RawGrant) (budget : Option Nat) (fs : List CalculatedGrant)
      (L i : Nat) (h1 : i < gs.length) (h2 : i < fs.length),
      calculate_clr gs budget = .ok (fs, L) → gs[i].funds = [] →
      fs[i].grant = 0) := by
  refine ⟨fun n m => ⟨isqrt_sq_le n, fun h => le_isqrt_of_sq_le h⟩,
    fun g s h => scoreGrant_ok h, ?_, ?_⟩
  · intro g hg
    simp [scoreGrant, hg]
  · intro gs budget fs L i h1 h2 h hempty
    have hscore : ∀ ss, calculate_scores gs = .ok ss →
        ∀ h3 : i < ss.length, ss[i] = 0 := by
      intro ss hss h3
      have hss' := calculate_scores_eq hss
      subst hss'
      rw [List.getElem_map, hempty]
      simp
    cases budget with
    | some b =>
      obtain ⟨ss, hss, hum, hcase⟩ := calculate_clr_some_inv h
      have h3 : i < ss.length := by
        rw [calculate_scores_length hss]
        exact h1
      rcases hcase with ⟨h0, hfs, hL⟩ | ⟨h0, hfs, hL⟩
      · subst hfs
        simp [List.getElem_map]
      · subst hfs
        have h4 : i < (ss.map (fun s => b * s / ss.sum)).length := by
          rw [List.length_map]
          exact h3
        rw [List.getElem_map, List.getElem_zip]
        show (ss.map (fun s => b * s / ss.sum))[i] = 0
        rw [List.getElem_map, hscore ss hss h3]
        simp
    | none =>
      obtain ⟨ss, hss, hum, hfs, hL⟩ := calculate_clr_none_inv h
      have h3 : i < ss.length := by
        rw [calculate_scores_length hss]
        exact h1
      subst hfs
      rw [List.getElem_map, List.getElem_zip]
      exact hscore ss hss h3

/-- C4 witness: a grant with no contributions scores 0 and is matched 0
under budget 5 (its collected total passes through). -/
theorem lr_score_spec_witness :
    scoreGrant ⟨"g", [], 7⟩ = .ok 0 ∧
      (([⟨"g", 0, 7⟩] : List CalculatedGrant).get ⟨0, by decide⟩).grant = 0 :=
  ⟨lr_score_spec.2.2.1 ⟨"g", [], 7⟩ rfl,
    lr_score_spec.2.2.2 [⟨"g", [], 7⟩] (some 5) [⟨"g", 0, 7⟩] 5 0
      (by decide) (by decide) (by decide) (by decide)⟩

/-! ## C5: the reference end-to-end scenario of the regression test -/

/-- The block the regression test instantiates and votes at. -/
def regEnv : Env := ⟨⟨12345, 0⟩⟩

/-- The block the regression test triggers distribution at (1000 blocks
later, past the voting period). -/
def regTrigEnv : Env := ⟨⟨13345, 0⟩⟩

/-- The test's `InstantiateMsg`: admin and leftover address, voting period
15 blocks out, proposal period 10 blocks out, budget denom `ucosm`. -/
def regInitMsg : InstantiateMsg :=
  ⟨"admin", "addr", none, none, .atHeight 12360, .atHeight 12355, "ucosm",
    .capitalConstrainedLiberalRadicalism ""⟩

/-- The test's instantiation info: the admin sends the 550000 `ucosm`
budget. -/
def regInfo : MessageInfo := ⟨"admin", [⟨"ucosm", 550000⟩]⟩

/-- The test's `CreateProposal` message for proposal `i`. -/
def regCreateMsg (i : Nat) : ExecuteMsg :=
  .createProposal ("proposal " ++ toString i) "" (some [116, 101, 115, 116])
    ("fund_address" ++ toString i)

/-- One vote of the test: `sender` sends `amt` `ucosm` for proposal `pid`. -/
def regVoteStep (st : ContractState) (sender : String) (amt pid : Nat) :
    Except ContractError ContractState := do
  let (st', _) ← execute st regEnv ⟨sender, [⟨"ucosm", amt⟩]⟩ (.voteProposal pid)
  pure st'

/-- The storage after the test's instantiation, four proposal creations and
nine votes. -/
def regPreState : Except ContractError ContractState := do
  let (s1, _) ← instantiate emptyState regEnv regInfo regInitMsg
  let (s2, _) ← execute s1 regEnv regInfo (regCreateMsg 1)
  let (s3, _) ← execute s2 regEnv regInfo (regCreateMsg 2)
  let (s4, _) ← execute s3 regEnv regInfo (regCreateMsg 3)
  let (s5, _) ← execute s4 regEnv regInfo (regCreateMsg 4)
  let s6 ← regVoteStep s5 "address1" 1200 1
  let s7 ← regVoteStep s6 "address2" 44999 1
  let s8 ← regVoteStep s7 "address3" 33 1
  let s9 ← regVoteStep s8 "address4" 30000 2
  let s10 ← regVoteStep s9 "address5" 58999 2
  let s11 ← regVoteStep s10 "address6" 230000 3
  let s12 ← regVoteStep s11 "address7" 100 3
  let s13 ← regVoteStep s12 "address8" 100000 4
  let s14 ← regVoteStep s13 "address9" 5 4
  pure s14

/-- The messages emitted by the admin's `TriggerDistribution` on that
storage. -/
def regRun : Except ContractError (List CosmosMsg) := do
  let s ← regPreState
  let (_, r) ← execute s regTrigEnv ⟨"admin", []⟩ .triggerDistribution
  pure r.messages

/-- The engine's matched amounts and leftover on the grants assembled from
that storage. -/
def regMatched : Except ContractError (List Nat × Nat) := do
  let s ← regPreState
  let (fs, L) ← calculate_clr (assembleGrants s) (some 550000)
  pure (fs.map (fun f => f.grant), L)

/-- The transfer messages the repository's regression test pins. -/
def regTestMsgs : List CosmosMsg :=
  [.bankSend "fund_address1" [⟨"ucosm", 106444⟩],
    .bankSend "fund_address2" [⟨"ucosm", 253601⟩],
    .bankSend "fund_address3" [⟨"ucosm", 458637⟩],
    .bankSend "fund_address4" [⟨"ucosm", 196653⟩],
    .bankSend "addr" [⟨"ucosm", 1⟩]]

/-- The transfer messages the claim predicts (matched 106444, 253601,
458637, 196653 plus the collected totals). -/
def regClaimMsgs : List CosmosMsg :=
  [.bankSend "fund_address1" [⟨"ucosm", 152676⟩],
    .bankSend "fund_address2" [⟨"ucosm", 342600⟩],
    .bankSend "fund_address3" [⟨"ucosm", 688737⟩],
    .bankSend "fund_address4" [⟨"ucosm", 296658⟩],
    .bankSend "addr" [⟨"ucosm", 1⟩]]

/-- C5 counterexample: on the reference scenario the engine's matched
amounts are 60212, 164602, 228537, 96648 — not 106444, 253601, 458637,
196653 as the claim states (those are the emitted transfer totals,
matched plus collected) — and the emitted transfers are the test's pinned
106444, 253601, 458637, 196653, not 152676, 342600, 688737, 296658. -/
theorem regression_claim_refuted :
    regMatched = .ok ([60212, 164602, 228537, 96648], 1) ∧
    regMatched ≠ .ok ([106444, 253601, 458637, 196653], 1) ∧
    regRun = .ok regTestMsgs ∧
    regRun ≠ .ok regClaimMsgs :=
  ⟨by decide, by decide, by decide, by decide⟩

/-- C5 (amended): on the reference scenario the engine returns matched
amounts 60212, 164602, 228537, 96648 in input order with leftover exactly
1, and the emitted transfers are matched plus collected: 106444, 253601,
458637, 196653, exactly as pinned by the repository's regression test. -/
theorem regression_scenario :
    regMatched = .ok ([60212, 164602, 228537, 96648], 1) ∧
      regRun = .ok regTestMsgs :=
  ⟨by decide, by decide⟩

/-! ## Lemmas about the storage maps -/

lemma natMapGet_save_self {α : Type} (m : List (Nat × α)) (k : Nat) (v : α) :
    natMapGet (natMapSave m k v) k = some v := by
  induction m with
  | nil => simp [natMapSave, natMapGet]
  | cons hd t ih =>
    obtain ⟨k', v'⟩ := hd
    simp only [natMapSave]
    split
    · simp [natMapGet]
    · split
      · simp [natMapGet]
      · next h1 h2 =>
        simp only [natMapGet, if_neg h1]
        exact ih

lemma natMapGet_save_ne {α : Type} (m : List (Nat × α)) (k q : Nat) (v : α)
    (hq : q ≠ k) : natMapGet (natMapSave m k v) q = natMapGet m q := by
  induction m with
  | nil => simp [natMapSave, natMapGet, hq]
  | cons hd t ih =>
    obtain ⟨k', v'⟩ := hd
    simp only [natMapSave]
    split
    · next h1 =>
      subst h1
      simp [natMapGet, hq]
    · split
      · simp [natMapGet, hq]
      · next h1 h2 =>
        by_cases h3 : q = k'
        · simp [natMapGet, h3]
        · simp only [natMapGet, if_neg h3]
          exact ih

lemma mem_natMapSave {α : Type} : ∀ {m : List (Nat × α)} {k : Nat} {v : α}
    {x : Nat × α}, x ∈ natMapSave m k v → x = (k, v) ∨ x ∈ m := by
  intro m
  induction m with
  | nil =>
    intro k v x hx
    simp [natMapSave] at hx
    exact Or.inl hx
  | cons hd t ih =>
    intro k v x hx
    obtain ⟨k', v'⟩ := hd
    simp only [natMapSave] at hx
    split at hx
    · rcases List.mem_cons.mp hx with h | h
      · exact Or.inl h
      · exact Or.inr (List.mem_cons_of_mem _ h)
    · split at hx
      · rcases List.mem_cons.mp hx with h | h
        · exact Or.inl h
        · exact Or.inr h
      · rcases List.mem_cons.mp hx with h | h
        · exact Or.inr (List.mem_cons.mpr (Or.inl h))
        · rcases ih h with h2 | h2
          · exact Or.inl h2
          · exact Or.inr (List.mem_cons_of_mem _ h2)

lemma natMapSave_pairwise {α : Type} : ∀ {m : List (Nat × α)} (k : Nat) (v : α),
    List.Pairwise (fun a b => a.1 < b.1) m →
    List.Pairwise (fun a b => a.1 < b.1) (natMapSave m k v) := by
  intro m
  induction m with
  | nil =>
    intro k v _
    simp [natMapSave]
  | cons hd t ih =>
    intro k v hp
    obtain ⟨k', v'⟩ := hd
    rw [List.pairwise_cons] at hp
    obtain ⟨hhd, ht⟩ := hp
    simp only [natMapSave]
    split
    · next h1 =>
      rw [List.pairwise_cons]
      exact ⟨fun x hx => h1 ▸ hhd x hx, ht⟩
    · split
      · next h1 h2 =>
        rw [List.pairwise_cons]
        refine ⟨?_, ?_⟩
        · intro x hx
          rcases List.mem_cons.mp hx with h | h
          · rw [h]
            exact h2
          · exact lt_trans h2 (hhd x h)
        · rw [List.pairwise_cons]
          exact ⟨hhd, ht⟩
      · next h1 h2 =>
        have hk : k' < k := by omega
        rw [List.pairwise_cons]
        refine ⟨?_, ih k v ht⟩
        intro x hx
        rcases mem_natMapSave hx with h | h
        · rw [h]
          exact hk
        · exact hhd x h

lemma mem_natMapSave_pairwise {α : Type} : ∀ {m : List (Nat × α)} {k : Nat}
    {v : α} {x : Nat × α},
    List.Pairwise (fun a b => a.1 < b.1) m →
    x ∈ natMapSave m k v → x = (k, v) ∨ (x ∈ m ∧ x.1 ≠ k) := by
  intro m
  induction m with
  | nil =>
    intro k v x _ hx
    simp [natMapSave] at hx
    exact Or.inl hx
  | cons hd t ih =>
    intro k v x hp hx
    obtain ⟨k', v'⟩ := hd
    rw [List.pairwise_cons] at hp
    obtain ⟨hhd, ht⟩ := hp
    simp only [natMapSave] at hx
    split at hx
    · next h1 =>
      rcases List.mem_cons.mp hx with h | h
      · exact Or.inl h
      · refine Or.inr ⟨List.mem_cons_of_mem _ h, ?_⟩
        have := hhd x h
        omega
    · split at hx
      · next h1 h2 =>
        rcases List.mem_cons.mp hx with h | h
        · exact Or.inl h
        · refine Or.inr ⟨h, ?_⟩
          rcases List.mem_cons.mp h with h3 | h3
          · rw [h3]
            omega
          · have := hhd x h3
            omega
      · next h1 h2 =>
        rcases List.mem_cons.mp hx with h | h
        · refine Or.inr ⟨List.mem_cons.mpr (Or.inl h), ?_⟩
          rw [h]
          omega
        · rcases ih ht h with h3 | h3
          · exact Or.inl h3
          · exact Or.inr ⟨List.mem_cons_of_mem _ h3.1, h3.2⟩

lemma natMapGet_mem {α : Type} : ∀ {m : List (Nat × α)} {k : Nat} {v : α},
    natMapGet m k = some v → (k, v) ∈ m := by
  intro m
  induction m with
  | nil => intro k v h; simp [natMapGet] at h
  | cons hd t ih =>
    intro k v h
    obtain ⟨k', v'⟩ := hd
    simp only [natMapGet] at h
    split at h
    · next h1 =>
      have h2 : v' = v := Option.some.inj h
      rw [h1, ← h2]
      exact List.mem_cons_self _ _
    · exact List.mem_cons_of_mem _ (ih h)

lemma voteGet_save_self (m : List (VoteKey × Vote)) (k : VoteKey) (v : Vote) :
    voteGet (voteSave m k v) k = some v := by
  induction m with
  | nil => simp [voteSave, voteGet]
  | cons hd t ih =>
    obtain ⟨k', v'⟩ := hd
    simp only [voteSave]
    split
    · simp [voteGet]
    · split
      · simp [voteGet]
      · next h1 h2 =>
        simp only [voteGet, if_neg h1]
        exact ih

lemma voteGet_save_ne (m : List (VoteKey × Vote)) (k q : VoteKey) (v : Vote)
    (hq : q ≠ k) : voteGet (voteSave m k v) q = voteGet m q := by
  induction m with
  | nil => simp [voteSave, voteGet, hq]
  | cons hd t ih =>
    obtain ⟨k', v'⟩ := hd
    simp only [voteSave]
    split
    · next h1 =>
      subst h1
      simp [voteGet, hq]
    · split
      · simp [voteGet, hq]
      · next h1 h2 =>
        by_cases h3 : q = k'
        · simp [voteGet, h3]
        · simp only [voteGet, if_neg h3]
          exact ih

lemma mem_voteSave : ∀ {m : List (VoteKey × Vote)} {k : VoteKey} {v : Vote}
    {x : VoteKey × Vote}, x ∈ voteSave m k v → x = (k, v) ∨ x ∈ m := by
  intro m
  induction m with
  | nil =>
    intro k v x hx
    simp [voteSave] at hx
    exact Or.inl hx
  | cons hd t ih =>
    intro k v x hx
    obtain ⟨k', v'⟩ := hd
    simp only [voteSave] at hx
    split at hx
    · rcases List.mem_cons.mp hx with h | h
      · exact Or.inl h
      · exact Or.inr (List.mem_cons_of_mem _ h)
    · split at hx
      · rcases List.mem_cons.mp hx with h | h
        · exact Or.inl h
        · exact Or.inr h
      · rcases List.mem_cons.mp hx with h | h
        · exact Or.inr (List.mem_cons.mpr (Or.inl h))
        · rcases ih h with h2 | h2
          · exact Or.inl h2
          · exact Or.inr (List.mem_cons_of_mem _ h2)

lemma sumVotesFor_filter (p : Nat) : ∀ votes : List (VoteKey × Vote),
    ((votes.filter (fun kv => kv.1.1 == p)).map
      (fun kv => kv.2.fund.amount)).sum = sumVotesFor p votes := by
  intro votes
  induction votes with
  | nil => rfl
  | cons kv t ih =>
    by_cases h : kv.1.1 = p
    · simp [List.filter_cons, h, sumVotesFor, ih]
    · simp [List.filter_cons, h, sumVotesFor, ih]

lemma sumVotesFor_eq_zero (p : Nat) : ∀ {votes : List (VoteKey × Vote)},
    (∀ kv ∈ votes, kv.1.1 ≠ p) → sumVotesFor p votes = 0 := by
  intro votes
  induction votes with
  | nil => intro _; rfl
  | cons kv t ih =>
    intro h
    have h1 : kv.1.1 ≠ p := h kv (List.mem_cons_self _ _)
    simp only [sumVotesFor, if_neg h1]
    rw [ih (fun x hx => h x (List.mem_cons_of_mem _ hx))]

lemma sumVotesFor_save (p : Nat) (k : VoteKey) (v : Vote) :
    ∀ {votes : List (VoteKey × Vote)}, voteGet votes k = none →
    sumVotesFor p (voteSave votes k v) =
      sumVotesFor p votes + (if k.1 = p then v.fund.amount else 0) := by
  intro votes
  induction votes with
  | nil =>
    intro _
    simp only [voteSave, sumVotesFor]
    omega
  | cons hd t ih =>
    intro hget
    obtain ⟨k', v'⟩ := hd
    have h1 : ¬(k = k') := fun h => by simp [voteGet, h] at hget
    have h2 : voteGet t k = none := by simpa [voteGet, h1] using hget
    simp only [voteSave, if_neg h1]
    split
    · simp only [sumVotesFor]
      omega
    · simp only [sumVotesFor, ih h2]
      omega

/-! ## Success inversion of the entry points -/

lemma instantiate_ok_inv {st : ContractState} {env : Env} {info : MessageInfo}
    {msg : InstantiateMsg} {st' : ContractState} {r : Response}
    (h : instantiate st env info msg = .ok (st', r)) :
    ∃ budget, extract_budget_coin info.funds msg.budget_denom = .ok budget ∧
      st' = { st with config := some ⟨msg.admin, msg.leftover_addr,
        msg.create_proposal_whitelist, msg.vote_proposal_whitelist,
        msg.voting_period, msg.proposal_period, budget, msg.algorithm⟩ } := by
  unfold instantiate at h
  split at h
  · exact absurd h (by simp)
  · split at h
    · exact absurd h (by simp)
    · next budget heq =>
      simp only [Except.ok.injEq, Prod.mk.injEq] at h
      exact ⟨budget, heq, h.1.symm⟩

lemma create_ok_inv {st : ContractState} {env : Env} {info : MessageInfo}
    {title description : String} {metadata : Option (List Nat)}
    {fund_address : String} {st' : ContractState} {r : Response}
    (h : execute_create_proposal st env info title description metadata
      fund_address = .ok (st', r)) :
    ∃ cfg, st.config = some cfg ∧
      whitelistOk cfg.create_proposal_whitelist info.sender = true ∧
      cfg.proposal_period.isExpired env.block = false ∧
      st' = { st with
        proposal_seq := st.proposal_seq + 1
        proposals := natMapSave st.proposals (st.proposal_seq + 1)
          ⟨st.proposal_seq + 1, title, description, metadata, fund_address, 0⟩ } := by
  cases hc : st.config with
  | none => simp only [execute_create_proposal, hc] at h; exact absurd h (by simp)
  | some cfg =>
    simp only [execute_create_proposal, hc] at h
    split at h
    · exact absurd h (by simp)
    · next hwl =>
      split at h
      · exact absurd h (by simp)
      · next hexp =>
        simp only [Except.ok.injEq, Prod.mk.injEq] at h
        refine ⟨cfg, rfl, ?_, ?_, h.1.symm⟩
        · cases hb : whitelistOk cfg.create_proposal_whitelist info.sender
          · exact absurd hb hwl
          · rfl
        · cases he : cfg.proposal_period.isExpired env.block
          · rfl
          · exact absurd he hexp

lemma vote_ok_inv {st : ContractState} {env : Env} {info : MessageInfo}
    {pid : Nat} {st' : ContractState} {r : Response}
    (h : execute_vote_proposal st env info pid = .ok (st', r)) :
    ∃ cfg fund prop, st.config = some cfg ∧
      whitelistOk cfg.vote_proposal_whitelist info.sender = true ∧
      cfg.voting_period.isExpired env.block = false ∧
      extract_budget_coin info.funds cfg.budget.denom = .ok fund ∧
      natMapGet st.proposals pid = some prop ∧
      prop.collected_funds + fund.amount ≤ UMAX ∧
      voteGet st.votes (pid, info.sender) = none ∧
      st' = { st with
        proposals := natMapSave st.proposals pid
          { prop with collected_funds := prop.collected_funds + fund.amount }
        votes := voteSave st.votes (pid, info.sender)
          ⟨pid, info.sender, fund⟩ } := by
  cases hc : st.config with
  | none => simp only [execute_vote_proposal, hc] at h; exact absurd h (by simp)
  | some cfg =>
    simp only [execute_vote_proposal, hc] at h
    split at h
    · exact absurd h (by simp)
    · next hwl =>
      split at h
      · exact absurd h (by simp)
      · next hexp =>
        split at h
        · exact absurd h (by simp)
        · next fund hfund =>
          split at h
          · exact absurd h (by simp)
          · next prop hprop =>
            split at h
            · exact absurd h (by simp)
            · next hover =>
              split at h
              · exact absurd h (by simp)
              · next hvote =>
                simp only [Except.ok.injEq, Prod.mk.injEq] at h
                refine ⟨cfg, fund, prop, rfl, ?_, ?_, hfund, hprop,
                  by omega, hvote, h.1.symm⟩
                · cases hb : whitelistOk cfg.vote_proposal_whitelist info.sender
                  · exact absurd hb hwl
                  · rfl
                · cases he : cfg.voting_period.isExpired env.block
                  · rfl
                  · exact absurd he hexp

lemma trigger_ok_inv {st : ContractState} {env : Env} {info : MessageInfo}
    {st' : ContractState} {r : Response}
    (h : execute_trigger_distribution st env info = .ok (st', r)) :
    ∃ cfg fs L, st.config = some cfg ∧
      info.sender = cfg.admin ∧
      cfg.voting_period.isExpired env.block = true ∧
      calculate_clr (assembleGrants st) (some cfg.budget.amount) = .ok (fs, L) ∧
      st' = st ∧
      r = ⟨(fs.map (fun f => CosmosMsg.bankSend f.addr
              [⟨cfg.budget.denom, f.grant + f.collected_vote_funds⟩])) ++
            [CosmosMsg.bankSend cfg.leftover_addr [⟨cfg.budget.denom, L⟩]],
          [("action", "trigger_distribution")]⟩ := by
  cases hc : st.config with
  | none => simp only [execute_trigger_distribution, hc] at h; exact absurd h (by simp)
  | some cfg =>
    simp only [execute_trigger_distribution, hc] at h
    split at h
    · exact absurd h (by simp)
    · next hadmin =>
      split at h
      · exact absurd h (by simp)
      · next hexp =>
        split at h
        · exact absurd h (by simp)
        · next fs L hclr =>
          simp only [Except.ok.injEq, Prod.mk.injEq] at h
          refine ⟨cfg, fs, L, rfl, by push_neg at hadmin; exact hadmin, ?_,
            hclr, h.1.symm, h.2.symm⟩
          cases he : cfg.voting_period.isExpired env.block
          · exact absurd he hexp
          · rfl

/-! ## The storage invariant of reachable states -/

/-- The storage invariant: proposal keys strictly ascending, all proposal
and vote ids bounded by the sequence counter, each proposal record carrying
its own key as `id`, and each proposal's `collected_funds` equal to the sum
of the recorded votes for it. -/
structure Inv (st : ContractState) : Prop where
  propsSorted : List.Pairwise (fun a b => a.1 < b.1) st.proposals
  seqBound : ∀ kp ∈ st.proposals, kp.1 ≤ st.proposal_seq
  votesBound : ∀ kv ∈ st.votes, kv.1.1 ≤ st.proposal_seq
  idMatch : ∀ kp ∈ st.proposals, kp.2.id = kp.1
  collected : ∀ kp ∈ st.proposals, kp.2.collected_funds = sumVotesFor kp.1 st.votes

lemma inv_instantiate {env : Env} {info : MessageInfo} {msg : InstantiateMsg}
    {st : ContractState} {r : Response}
    (h : instantiate emptyState env info msg = .ok (st, r)) : Inv st := by
  obtain ⟨budget, _, hst⟩ := instantiate_ok_inv h
  subst hst
  exact ⟨List.Pairwise.nil, by simp [emptyState], by simp [emptyState],
    by simp [emptyState], by simp [emptyState]⟩

lemma inv_create {st : ContractState} {env : Env} {info : MessageInfo}
    {title description : String} {metadata : Option (List Nat)}
    {fund_address : String} {st' : ContractState} {r : Response}
    (hInv : Inv st)
    (h : execute_create_proposal st env info title description metadata
      fund_address = .ok (st', r)) : Inv st' := by
  obtain ⟨cfg, _, _, _, hst⟩ := create_ok_inv h
  subst hst
  refine ⟨natMapSave_pairwise _ _ hInv.propsSorted, ?_, ?_, ?_, ?_⟩
  · intro kp hkp
    rcases mem_natMapSave hkp with h1 | h1
    · rw [h1]
    · exact Nat.le_succ_of_le (hInv.seqBound kp h1)
  · intro kv hkv
    exact Nat.le_succ_of_le (hInv.votesBound kv hkv)
  · intro kp hkp
    rcases mem_natMapSave hkp with h1 | h1
    · rw [h1]
    · exact hInv.idMatch kp h1
  · intro kp hkp
    rcases mem_natMapSave hkp with h1 | h1
    · rw [h1]
      exact (sumVotesFor_eq_zero _ (fun kv hkv => by
        have := hInv.votesBound kv hkv
        omega)).symm
    · exact hInv.collected kp h1

lemma inv_vote {st : ContractState} {env : Env} {info : MessageInfo}
    {pid : Nat} {st' : ContractState} {r : Response}
    (hInv : Inv st)
    (h : execute_vote_proposal st env info pid = .ok (st', r)) : Inv st' := by
  obtain ⟨cfg, fund, prop, hc, hwl, hexp, hfund, hprop, hover, hvote, hst⟩ :=
    vote_ok_inv h
  subst hst
  have hmem : (pid, prop) ∈ st.proposals := natMapGet_mem hprop
  refine ⟨natMapSave_pairwise _ _ hInv.propsSorted, ?_, ?_, ?_, ?_⟩
  · intro kp hkp
    rcases mem_natMapSave hkp with h1 | h1
    · rw [h1]
      exact hInv.seqBound (pid, prop) hmem
    · exact hInv.seqBound kp h1
  · intro kv hkv
    rcases mem_voteSave hkv with h1 | h1
    · rw [h1]
      exact hInv.seqBound (pid, prop) hmem
    · exact hInv.votesBound kv h1
  · intro kp hkp
    rcases mem_natMapSave hkp with h1 | h1
    · rw [h1]
      exact hInv.idMatch (pid, prop) hmem
    · exact hInv.idMatch kp h1
  · intro kp hkp
    rcases mem_natMapSave_pairwise hInv.propsSorted hkp with h1 | ⟨h1, h2⟩
    · rw [h1]
      show prop.collected_funds + fund.amount = _
      rw [sumVotesFor_save pid (pid, info.sender) ⟨pid, info.sender, fund⟩ hvote]
      rw [← hInv.collected (pid, prop) hmem]
      simp
    · rw [sumVotesFor_save kp.1 (pid, info.sender) ⟨pid, info.sender, fund⟩ hvote]
      have hne : ¬((pid, info.sender).1 = kp.1) := fun hh => h2 hh.symm
      rw [if_neg hne, Nat.add_zero]
      exact hInv.collected kp h1

lemma inv_trigger {st : ContractState} {env : Env} {info : MessageInfo}
    {st' : ContractState} {r : Response}
    (hInv : Inv st)
    (h : execute_trigger_distribution st env info = .ok (st', r)) : Inv st' := by
  obtain ⟨cfg, fs, L, _, _, _, _, hst, _⟩ := trigger_ok_inv h
  subst hst
  exact hInv

/-- Every reachable state satisfies the storage invariant. -/
lemma reachable_inv {st : ContractState} (h : Reachable st) : Inv st := by
  induction h with
  | init env info msg st r hstep => exact inv_instantiate hstep
  | step st env info msg st' r _ hstep ih =>
    cases msg with
    | createProposal title description metadata fund_address =>
      exact inv_create ih hstep
    | voteProposal pid => exact inv_vote ih hstep
    | triggerDistribution => exact inv_trigger ih hstep

/-! ## C3: collected_funds equals the sum of recorded votes -/

/-- C3: in every reachable state, each stored proposal's `collected_funds`
equals the sum of the vote amounts recorded for it; consequently every raw
grant assembled by trigger-distribution has `collected_vote_funds` equal to
the sum of its contribution list. -/
theorem collected_funds_invariant {st : ContractState} (h : Reachable st) :
    (∀ kp ∈ st.proposals, kp.2.collected_funds = sumVotesFor kp.1 st.votes) ∧
    (∀ g ∈ assembleGrants st, g.collected_vote_funds = g.funds.sum) := by
  have hInv := reachable_inv h
  refine ⟨hInv.collected, ?_⟩
  intro g hg
  unfold assembleGrants at hg
  rw [List.map_map] at hg
  rcases List.mem_map.mp hg with ⟨kp, hkp, hgkp⟩
  rw [← hgkp]
  show kp.2.collected_funds =
    ((st.votes.filter (fun kv => kv.1.1 == kp.2.id)).map
      (fun kv => kv.2.fund.amount)).sum
  rw [sumVotesFor_filter, hInv.idMatch kp hkp]
  exact hInv.collected kp hkp

/-! ## Concrete fixtures for the witnesses -/

/-- The config stored by `regInitMsg` with the 550000 `ucosm` budget. -/
def regCfg : Config :=
  ⟨"admin", "addr", none, none, .atHeight 12360, .atHeight 12355,
    ⟨"ucosm", 550000⟩, .capitalConstrainedLiberalRadicalism ""⟩

/-- Storage right after instantiation. -/
def wState0 : ContractState := ⟨some regCfg, 0, [], []⟩

/-- The proposal created in the witness scenario. -/
def wProp : Proposal := ⟨1, "t", "d", none, "fund", 0⟩

/-- The same proposal after collecting alice's 100 `ucosm` vote. -/
def wPropVoted : Proposal := ⟨1, "t", "d", none, "fund", 100⟩

/-- Storage after creating the proposal. -/
def wState1 : ContractState := ⟨some regCfg, 1, [(1, wProp)], []⟩

/-- Alice's recorded vote. -/
def wVote : Vote := ⟨1, "alice", ⟨"ucosm", 100⟩⟩

/-- Storage after alice's vote. -/
def wState2 : ContractState :=
  ⟨some regCfg, 1, [(1, wPropVoted)], [((1, "alice"), wVote)]⟩

/-- The response of the witness scenario's create-proposal call. -/
def wCreateResp : Response :=
  ⟨[], [("action", "create_proposal"), ("title", "t"), ("proposal_id", "1")]⟩

/-- The response of the witness scenario's vote call. -/
def wVoteResp : Response :=
  ⟨[], [("action", "vote_proposal"), ("proposal_key", "1"),
    ("voter", "alice"), ("collected_fund", "100")]⟩

/-- `wState2` is reachable: instantiate, create, vote. -/
lemma reachable_wState2 : Reachable wState2 :=
  Reachable.step wState1 regEnv ⟨"alice", [⟨"ucosm", 100⟩]⟩ (.voteProposal 1)
    wState2 wVoteResp
    (Reachable.step wState0 regEnv regInfo
      (.createProposal "t" "d" none "fund") wState1 wCreateResp
      (Reachable.init regEnv regInfo regInitMsg wState0 ⟨[], []⟩ (by decide))
      (by decide))
    (by decide)

/-- C3 witness: in the concrete reachable state `wState2` the stored
proposal's collected funds equal the recorded vote sum. -/
theorem collected_funds_invariant_witness :
    (1, wPropVoted).2.collected_funds = sumVotesFor (1, wPropVoted).1 wState2.votes :=
  (collected_funds_invariant reachable_wState2).1 (1, wPropVoted) (by decide)

/-! ## C2: errors abort atomically -/

/-- C2: at the transaction boundary every error leaves the stored state
exactly as it was and produces no response (hence no transfer messages);
in particular a failed VoteProposal leaves every proposal record — and so
every `collected_funds` — unchanged. -/
theorem errors_atomic :
    (∀ st env info msg e, execute st env info msg = .error e →
      executeTx st env info msg = (st, .error e)) ∧
    (∀ st env info imsg e, instantiate st env info imsg = .error e →
      instantiateTx st env info imsg = (st, .error e)) ∧
    (∀ st env info pid e, execute st env info (.voteProposal pid) = .error e →
      (executeTx st env info (.voteProposal pid)).1.proposals = st.proposals) := by
  refine ⟨?_, ?_, ?_⟩
  · intro st env info msg e h
    unfold executeTx
    rw [h]
  · intro st env info imsg e h
    unfold instantiateTx
    rw [h]
  · intro st env info pid e h
    unfold executeTx
    rw [h]

/-- C2 witness: alice's double vote fails with AddressAlreadyVotedProject
and commits no state change. -/
theorem errors_atomic_witness :
    executeTx wState2 regEnv ⟨"alice", [⟨"ucosm", 7⟩]⟩ (.voteProposal 1) =
      (wState2, .error .addressAlreadyVotedProject) :=
  errors_atomic.1 wState2 regEnv ⟨"alice", [⟨"ucosm", 7⟩]⟩ (.voteProposal 1)
    .addressAlreadyVotedProject (by decide)

/-! ## C6 and C7: shape of the trigger-distribution output -/

lemma clr_addr_collected {gs : List RawGrant} {budget : Option Nat}
    {fs : List CalculatedGrant} {L : Nat}
    (h : calculate_clr gs budget = .ok (fs, L)) :
    fs.length = gs.length ∧
      fs.map (fun f => f.addr) = gs.map (fun g => g.addr) := by
  cases budget with
  | some b =>
    obtain ⟨ss, hs, hum, hcase⟩ := calculate_clr_some_inv h
    have hsl := calculate_scores_length hs
    rcases hcase with ⟨h0, hfs, hL⟩ | ⟨h0, hfs, hL⟩
    · subst hfs
      refine ⟨by simp, ?_⟩
      rw [List.map_map]
      rfl
    · subst hfs
      have hmlen : (ss.map (fun s => b * s / ss.sum)).length = gs.length := by
        rw [List.length_map, hsl]
      refine ⟨?_, ?_⟩
      · rw [List.length_map, List.length_zip, hmlen, Nat.min_self]
      · rw [List.map_map]
        have hcomp : ((fun (f : CalculatedGrant) => f.addr) ∘
            (fun gm : RawGrant × Nat =>
              (⟨gm.1.addr, gm.2, gm.1.collected_vote_funds⟩ : CalculatedGrant))) =
            (fun g : RawGrant => g.addr) ∘ Prod.fst := rfl
        rw [hcomp, ← List.map_map]
        rw [List.map_fst_zip _ _ (le_of_eq hmlen.symm)]
  | none =>
    obtain ⟨ss, hs, hum, hfs, hL⟩ := calculate_clr_none_inv h
    have hsl := calculate_scores_length hs
    subst hfs
    refine ⟨?_, ?_⟩
    · rw [List.length_map, List.length_zip, hsl, Nat.min_self]
    · rw [List.map_map]
      have hcomp : ((fun (f : CalculatedGrant) => f.addr) ∘
          (fun gm : RawGrant × Nat =>
            (⟨gm.1.addr, gm.2, gm.1.collected_vote_funds⟩ : CalculatedGrant))) =
          (fun g : RawGrant => g.addr) ∘ Prod.fst := rfl
      rw [hcomp, ← List.map_map]
      rw [List.map_fst_zip _ _ (le_of_eq hsl.symm)]

/-- C7: on a successful trigger-distribution, message i sends exactly
matched + collected in the budget denomination to grant i's fund address,
and the final message sends the leftover to the configured leftover
address. -/
theorem transfer_composition {st : ContractState} {env : Env}
    {info : MessageInfo} {cfg : Config} {st' : ContractState} {resp : Response}
    (hc : st.config = some cfg)
    (h : execute_trigger_distribution st env info = .ok (st', resp)) :
    ∃ fs L,
      calculate_clr (assembleGrants st) (some cfg.budget.amount) = .ok (fs, L) ∧
      resp.messages = fs.map (fun f => CosmosMsg.bankSend f.addr
          [⟨cfg.budget.denom, f.grant + f.collected_vote_funds⟩]) ++
        [CosmosMsg.bankSend cfg.leftover_addr [⟨cfg.budget.denom, L⟩]] ∧
      (∀ i, (hi : i < fs.length) →
        resp.messages[i]? = some (CosmosMsg.bankSend (fs[i].addr)
          [⟨cfg.budget.denom, fs[i].grant + fs[i].collected_vote_funds⟩])) ∧
      resp.messages.getLast? =
        some (CosmosMsg.bankSend cfg.leftover_addr [⟨cfg.budget.denom, L⟩]) := by
  obtain ⟨cfg2, fs, L, hc2, hadmin, hexp, hclr, hst, hr⟩ := trigger_ok_inv h
  have hcfg : cfg = cfg2 := by
    rw [hc] at hc2
    exact Option.some.inj hc2
  subst hcfg
  refine ⟨fs, L, hclr, by rw [hr], ?_, ?_⟩
  · intro i hi
    rw [hr]
    show ((fs.map (fun f => CosmosMsg.bankSend f.addr
        [⟨cfg.budget.denom, f.grant + f.collected_vote_funds⟩])) ++
      [CosmosMsg.bankSend cfg.leftover_addr [⟨cfg.budget.denom, L⟩]])[i]? = _
    rw [List.getElem?_append,
      if_pos (show i < (fs.map (fun f => CosmosMsg.bankSend f.addr
        [⟨cfg.budget.denom, f.grant + f.collected_vote_funds⟩])).length by
          rw [List.length_map]; exact hi)]
    rw [List.getElem?_map, List.getElem?_eq_getElem hi]
    rfl
  · rw [hr]
    exact List.getLast?_concat _

/-- C7 witness: triggering on the concrete one-proposal state emits the
whole budget plus the collected 100 to the fund address and leftover 0 to
the leftover address, as the last message. -/
theorem transfer_composition_witness :
    (execute_trigger_distribution wState2 ⟨⟨13345, 0⟩⟩ ⟨"admin", []⟩ =
      .ok (wState2,
        ⟨[.bankSend "fund" [⟨"ucosm", 550100⟩], .bankSend "addr" [⟨"ucosm", 0⟩]],
          [("action", "trigger_distribution")]⟩)) ∧
    ([CosmosMsg.bankSend "fund" [⟨"ucosm", 550100⟩],
        CosmosMsg.bankSend "addr" [⟨"ucosm", 0⟩]].getLast? =
      some (CosmosMsg.bankSend "addr" [⟨"ucosm", 0⟩])) := by
  have htr : execute_trigger_distribution wState2 ⟨⟨13345, 0⟩⟩ ⟨"admin", []⟩ =
      .ok (wState2,
        ⟨[.bankSend "fund" [⟨"ucosm", 550100⟩], .bankSend "addr" [⟨"ucosm", 0⟩]],
          [("action", "trigger_distribution")]⟩) := by decide
  refine ⟨htr, ?_⟩
  obtain ⟨fs, L, hclr, hmsgs, hidx, hlast⟩ :=
    @transfer_composition wState2 ⟨⟨13345, 0⟩⟩ ⟨"admin", []⟩ regCfg wState2
      ⟨[.bankSend "fund" [⟨"ucosm", 550100⟩], .bankSend "addr" [⟨"ucosm", 0⟩]],
        [("action", "trigger_distribution")]⟩ (by decide) htr
  have h2 : calculate_clr (assembleGrants wState2) (some regCfg.budget.amount) =
      .ok ([⟨"fund", 550000, 100⟩], 0) := by decide
  rw [h2] at hclr
  have h3 := (Except.ok.injEq _ _).mp hclr
  have hfs : ([⟨"fund", 550000, 100⟩] : List CalculatedGrant) = fs :=
    congrArg Prod.fst h3
  have hL : (0 : Nat) = L := congrArg Prod.snd h3
  rw [← hL] at hlast
  exact hlast

/-- C6: with the stored proposals in strictly ascending key order, a
successful trigger-distribution emits one transfer per proposal in exactly
that order — message i goes to proposal i's fund address — followed by
exactly one leftover message as the final element. -/
theorem output_order {st : ContractState} {env : Env}
    {info : MessageInfo} {cfg : Config} {st' : ContractState} {resp : Response}
    (hc : st.config = some cfg)
    (hsorted : List.Pairwise (fun a b => a.1 < b.1) st.proposals)
    (h : execute_trigger_distribution st env info = .ok (st', resp)) :
    ∃ fs L,
      calculate_clr (assembleGrants st) (some cfg.budget.amount) = .ok (fs, L) ∧
      fs.length = st.proposals.length ∧
      resp.messages.length = st.proposals.length + 1 ∧
      (∀ i, (hi : i < st.proposals.length) → (hf : i < fs.length) →
        resp.messages[i]? = some (CosmosMsg.bankSend
          ((st.proposals[i]).2.fund_address)
          [⟨cfg.budget.denom, fs[i].grant + fs[i].collected_vote_funds⟩])) ∧
      resp.messages.getLast? =
        some (CosmosMsg.bankSend cfg.leftover_addr [⟨cfg.budget.denom, L⟩]) := by
  obtain ⟨cfg2, fs, L, hc2, hadmin, hexp, hclr, hst, hr⟩ := trigger_ok_inv h
  have hcfg : cfg = cfg2 := by
    rw [hc] at hc2
    exact Option.some.inj hc2
  subst hcfg
  have hshape := clr_addr_collected hclr
  have hglen : (assembleGrants st).length = st.proposals.length := by
    unfold assembleGrants
    rw [List.length_map, List.length_map]
  have hflen : fs.length = st.proposals.length := by rw [hshape.1, hglen]
  refine ⟨fs, L, hclr, hflen, ?_, ?_, ?_⟩
  · rw [hr]
    show ((fs.map (fun f => CosmosMsg.bankSend f.addr
        [⟨cfg.budget.denom, f.grant + f.collected_vote_funds⟩])) ++
      [CosmosMsg.bankSend cfg.leftover_addr [⟨cfg.budget.denom, L⟩]]).length = _
    rw [List.length_append, List.length_map, hflen]
    rfl
  · intro i hi hf
    have hgi : i < (assembleGrants st).length := by rw [hglen]; exact hi
    have haddr : fs[i].addr = (assembleGrants st)[i].addr := by
      have h1 := congrArg (fun l => l[i]?) hshape.2
      simp only [List.getElem?_map] at h1
      rw [List.getElem?_eq_getElem hf, List.getElem?_eq_getElem hgi] at h1
      simpa using h1
    have haddr2 : (assembleGrants st)[i].addr = (st.proposals[i]).2.fund_address := by
      unfold assembleGrants
      simp only [List.getElem_map]
    rw [hr]
    show ((fs.map (fun f => CosmosMsg.bankSend f.addr
        [⟨cfg.budget.denom, f.grant + f.collected_vote_funds⟩])) ++
      [CosmosMsg.bankSend cfg.leftover_addr [⟨cfg.budget.denom, L⟩]])[i]? = _
    rw [List.getElem?_append,
      if_pos (show i < (fs.map (fun f => CosmosMsg.bankSend f.addr
        [⟨cfg.budget.denom, f.grant + f.collected_vote_funds⟩])).length by
          rw [List.length_map]; exact hf)]
    rw [List.getElem?_map, List.getElem?_eq_getElem hf]
    show some (CosmosMsg.bankSend fs[i].addr
      [⟨cfg.budget.denom, fs[i].grant + fs[i].collected_vote_funds⟩]) = _
    rw [haddr.trans haddr2]
  · rw [hr]
    exact List.getLast?_concat _

/-- C6 witness: on the concrete one-proposal state the trigger response
has one transfer per proposal plus the final leftover message. -/
theorem output_order_witness :
    (execute_trigger_distribution wState2 ⟨⟨13345, 0⟩⟩ ⟨"admin", []⟩ =
      .ok (wState2,
        ⟨[.bankSend "fund" [⟨"ucosm", 550100⟩], .bankSend "addr" [⟨"ucosm", 0⟩]],
          [("action", "trigger_distribution")]⟩)) ∧
    ([CosmosMsg.bankSend "fund" [⟨"ucosm", 550100⟩],
        CosmosMsg.bankSend "addr" [⟨"ucosm", 0⟩]] : List CosmosMsg).length =
      wState2.proposals.length + 1 := by
  have htr : execute_trigger_distribution wState2 ⟨⟨13345, 0⟩⟩ ⟨"admin", []⟩ =
      .ok (wState2,
        ⟨[.bankSend "fund" [⟨"ucosm", 550100⟩], .bankSend "addr" [⟨"ucosm", 0⟩]],
          [("action", "trigger_distribution")]⟩) := by decide
  refine ⟨htr, ?_⟩
  obtain ⟨fs, L, hclr, hflen, hlen, hidx, hlast⟩ :=
    @output_order wState2 ⟨⟨13345, 0⟩⟩ ⟨"admin", []⟩ regCfg wState2
      ⟨[.bankSend "fund" [⟨"ucosm", 550100⟩], .bankSend "addr" [⟨"ucosm", 0⟩]],
        [("action", "trigger_distribution")]⟩ (by decide) (by decide) htr
  exact hlen

/-! ## C8: the vote error cases -/

/-- C8: when the vote guards pass, a second vote by the same sender on the
same proposal fails with AddressAlreadyVotedProject (the recorded vote is
untouched since nothing is committed), and a vote on an id with no stored
proposal fails with ProposalNotFound. -/
theorem vote_error_cases {st : ContractState} {env : Env}
    {info : MessageInfo} {pid : Nat} {cfg : Config} {c : Coin}
    (hc : st.config = some cfg)
    (hwl : whitelistOk cfg.vote_proposal_whitelist info.sender = true)
    (hexp : cfg.voting_period.isExpired env.block = false)
    (hfund : extract_budget_coin info.funds cfg.budget.denom = .ok c) :
    (∀ prop v, natMapGet st.proposals pid = some prop →
      prop.collected_funds + c.amount ≤ UMAX →
      voteGet st.votes (pid, info.sender) = some v →
      execute_vote_proposal st env info pid = .error .addressAlreadyVotedProject ∧
      (executeTx st env info (.voteProposal pid)).1 = st) ∧
    (natMapGet st.proposals pid = none →
      execute_vote_proposal st env info pid = .error .proposalNotFound) := by
  constructor
  · intro prop v hprop hover hv
    have hno : ¬(UMAX < prop.collected_funds + c.amount) := by omega
    have herr : execute_vote_proposal st env info pid =
        .error .addressAlreadyVotedProject := by
      simp [execute_vote_proposal, hc, hwl, hexp, hfund, hprop, hno, hv]
    refine ⟨herr, ?_⟩
    have hex : execute st env info (.voteProposal pid) =
        .error .addressAlreadyVotedProject := herr
    unfold executeTx
    rw [hex]
  · intro hprop
    simp [execute_vote_proposal, hc, hwl, hexp, hfund, hprop]

/-- C8 witness: alice's second vote on proposal 1 fails with
AddressAlreadyVotedProject, and a vote on the absent proposal 2 fails with
ProposalNotFound. -/
theorem vote_error_cases_witness :
    (execute_vote_proposal wState2 regEnv ⟨"alice", [⟨"ucosm", 7⟩]⟩ 1 =
      .error .addressAlreadyVotedProject) ∧
    (execute_vote_proposal wState2 regEnv ⟨"bob", [⟨"ucosm", 7⟩]⟩ 2 =
      .error .proposalNotFound) :=
  ⟨((@vote_error_cases wState2 regEnv ⟨"alice", [⟨"ucosm", 7⟩]⟩ 1 regCfg
        ⟨"ucosm", 7⟩ (by decide) (by decide) (by decide) (by decide)).1
      wPropVoted wVote (by decide) (by decide) (by decide)).1,
    (@vote_error_cases wState2 regEnv ⟨"bob", [⟨"ucosm", 7⟩]⟩ 2 regCfg
        ⟨"ucosm", 7⟩ (by decide) (by decide) (by decide) (by decide)).2
      (by decide)⟩

/-! ## C9: the frame of a successful vote -/

/-- C9: a successful vote on proposal `pid` with extracted coin `c` updates
exactly that proposal's `collected_funds` (by exactly `c.amount`), records
exactly one new vote under `(pid, sender)` — a key that was previously
absent — and leaves every other proposal, every other vote, the config and
the sequence counter unchanged. -/
theorem vote_success_frame {st : ContractState} {env : Env}
    {info : MessageInfo} {pid : Nat} {st' : ContractState} {r : Response}
    {cfg : Config} {c : Coin} {prop : Proposal}
    (hc : st.config = some cfg)
    (hfund : extract_budget_coin info.funds cfg.budget.denom = .ok c)
    (hprop : natMapGet st.proposals pid = some prop)
    (h : execute_vote_proposal st env info pid = .ok (st', r)) :
    st'.config = st.config ∧
    st'.proposal_seq = st.proposal_seq ∧
    natMapGet st'.proposals pid =
      some { prop with collected_funds := prop.collected_funds + c.amount } ∧
    (∀ q, q ≠ pid → natMapGet st'.proposals q = natMapGet st.proposals q) ∧
    voteGet st'.votes (pid, info.sender) = some ⟨pid, info.sender, c⟩ ∧
    (∀ k, k ≠ (pid, info.sender) → voteGet st'.votes k = voteGet st.votes k) ∧
    voteGet st.votes (pid, info.sender) = none := by
  obtain ⟨cfg2, fund2, prop2, hc2, hwl2, hexp2, hfund2, hprop2, hover2,
    hvote2, hst⟩ := vote_ok_inv h
  have hcfg : cfg = cfg2 := by
    rw [hc] at hc2
    exact Option.some.inj hc2
  subst hcfg
  have hfd : c = fund2 := by
    rw [hfund] at hfund2
    exact Except.ok.inj hfund2
  subst hfd
  have hpd : prop = prop2 := by
    rw [hprop] at hprop2
    exact Option.some.inj hprop2
  subst hpd
  subst hst
  refine ⟨rfl, rfl, ?_, ?_, ?_, ?_, hvote2⟩
  · exact natMapGet_save_self st.proposals pid _
  · intro q hq
    exact natMapGet_save_ne st.proposals pid q _ hq
  · exact voteGet_save_self st.votes (pid, info.sender) _
  · intro k hk
    exact voteGet_save_ne st.votes (pid, info.sender) k _ hk

/-- C9 witness: alice's successful vote on the concrete state records her
vote, updates the proposal, and the key was previously absent. -/
theorem vote_success_frame_witness :
    natMapGet wState2.proposals 1 = some wPropVoted ∧
      voteGet wState2.votes (1, "alice") = some wVote ∧
      voteGet wState1.votes (1, "alice") = none := by
  have h := @vote_success_frame wState1 regEnv ⟨"alice", [⟨"ucosm", 100⟩]⟩ 1
    wState2 wVoteResp regCfg ⟨"ucosm", 100⟩ wProp
    (by decide) (by decide) (by decide) (by decide)
  exact ⟨h.2.2.1, h.2.2.2.2.1, h.2.2.2.2.2.2⟩

/-! ## C10: the trigger-distribution guards -/

/-- C10: a non-admin trigger fails with Unauthorized and an admin trigger
before the voting period has expired fails with VotingPeriodNotExpired; in
both cases the transaction commits no state change and emits nothing. -/
theorem trigger_guards {st : ContractState} {env : Env} {info : MessageInfo}
    {cfg : Config} (hc : st.config = some cfg) :
    (info.sender ≠ cfg.admin →
      execute_trigger_distribution st env info = .error .unauthorized ∧
      executeTx st env info .triggerDistribution =
        (st, .error .unauthorized)) ∧
    (info.sender = cfg.admin → cfg.voting_period.isExpired env.block = false →
      execute_trigger_distribution st env info = .error .votingPeriodNotExpired ∧
      executeTx st env info .triggerDistribution =
        (st, .error .votingPeriodNotExpired)) := by
  constructor
  · intro hne
    have herr : execute_trigger_distribution st env info =
        .error .unauthorized := by
      simp [execute_trigger_distribution, hc, hne]
    refine ⟨herr, ?_⟩
    have hex : execute st env info .triggerDistribution =
        .error .unauthorized := herr
    unfold executeTx
    rw [hex]
  · intro heq hexp
    have herr : execute_trigger_distribution st env info =
        .error .votingPeriodNotExpired := by
      simp [execute_trigger_distribution, hc, heq, hexp]
    refine ⟨herr, ?_⟩
    have hex : execute st env info .triggerDistribution =
        .error .votingPeriodNotExpired := herr
    unfold executeTx
    rw [hex]

/-- C10 witness: a stranger's trigger is Unauthorized; the admin triggering
before expiry gets VotingPeriodNotExpired. -/
theorem trigger_guards_witness :
    (execute_trigger_distribution wState2 regEnv ⟨"mallory", []⟩ =
      .error .unauthorized) ∧
    (execute_trigger_distribution wState2 regEnv ⟨"admin", []⟩ =
      .error .votingPeriodNotExpired) :=
  ⟨((@trigger_guards wState2 regEnv ⟨"mallory", []⟩ regCfg (by decide)).1
      (by decide)).1,
    ((@trigger_guards wState2 regEnv ⟨"admin", []⟩ regCfg (by decide)).2
      (by decide) (by decide)).1⟩

end QF
